import Mathlib

/-!
# Verification of the wapiti `wappalyzer` detection engine

Shallow embedding of `src/wapitiCore/wappalyzer/wappalyzer.py`:
the signature-database normalization (`ApplicationData`), the detection
engine (`Wappalyzer`), the version-template interpreter and the
implication resolver.

Modelling conventions:
* Python dictionaries become association lists (`List (String × α)`) with
  first-key-wins lookup (`dictGet`) and replace-or-append assignment
  (`dictSet`), which matches the unique-key/insertion-order semantics of
  Python dicts as used by the source.
* Python sets become `List String` maintained without duplicates
  (`setAdd` / `setUnion`); results are compared by membership.
* Python exceptions become `Except Err`; each raising operation is a
  total Lean function returning `Except`.
* The Python `re` library is an external collaborator.  A compiled
  regular expression is embedded as a small executable AST (`RE`) with a
  search function (`reSearch`, the embedding of `re.search` truthiness)
  and an all-occurrences capture function (`reFindall`, the embedding of
  `re.findall` after the source's wrap-a-`str`-occurrence-into-a-list
  step).  All patterns are compiled with `re.I`, so character comparison
  is case-insensitive.  `re.compile` itself is a parameter
  (`Compile : String → Option RE`): `none` models `re.error`.
  The constant never-matching regex `(?!x)x` used by the source's
  fallback branch is embedded as the AST node `RE.never`.
* Python `while` loops that are not structurally recursive are embedded
  with an explicit fuel argument; the fuel bounds used are proved
  sufficient (see the fixed-point-termination theorem), so the fuel-out
  branch is unreachable for the top-level entry points.
-/

/-! ## Python-string helpers (embeddings of `str` methods used by the source) -/

/-- A Python `for` loop that builds a list and propagates the first
raised exception. -/
def exceptMap {α β ε : Type} (f : α → Except ε β) : List α → Except ε (List β)
  | [] => Except.ok []
  | x :: t =>
      match f x with
      | Except.error e => Except.error e
      | Except.ok y =>
          match exceptMap f t with
          | Except.error e => Except.error e
          | Except.ok ys => Except.ok (y :: ys)

/-- A Python `for` loop that folds an accumulator and propagates the
first raised exception. -/
def exceptFoldl {α β ε : Type} (f : β → α → Except ε β) : β → List α → Except ε β
  | acc, [] => Except.ok acc
  | acc, x :: t =>
      match f acc x with
      | Except.error e => Except.error e
      | Except.ok acc2 => exceptFoldl f acc2 t

/-- Association-list lookup: Python `d[k]` / `k in d` / `d.get(k)`. -/
def dictGet {α : Type} : List (String × α) → String → Option α
  | [], _ => none
  | kv :: t, k => if kv.1 = k then some kv.2 else dictGet t k

/-- Association-list assignment `d[k] = v`: replace in place, else append
(Python dict preserves insertion order and overwrites existing keys). -/
def dictSet {α : Type} : List (String × α) → String → α → List (String × α)
  | [], k, v => [(k, v)]
  | kv :: t, k, v => if kv.1 = k then (k, v) :: t else kv :: dictSet t k v

/-- Embedding of Python `str.lower()` (ASCII case folding as in
`Char.toLower`, which is what the source's database keys exercise). -/
def pyLower (s : String) : String :=
  String.mk (s.data.map Char.toLower)

/-- One splitting step for `pySplit`; the fuel is always at least the
length of the remaining character list, so the `0` guard is unreachable. -/
def pySplitAux (sep : List Char) : Nat → List Char → List Char → List (List Char)
  | _, acc, [] => [acc.reverse]
  | 0, acc, s => [acc.reverse ++ s]
  | fuel + 1, acc, c :: t =>
      if sep ≠ [] ∧ sep.isPrefixOf (c :: t) then
        acc.reverse :: pySplitAux sep fuel [] ((c :: t).drop sep.length)
      else
        pySplitAux sep fuel (c :: acc) t

/-- Embedding of Python `s.split(sep)` for a non-empty separator:
non-overlapping, left to right, keeps empty segments. -/
def pySplit (s sep : String) : List String :=
  (pySplitAux sep.data s.data.length [] s.data).map String.mk

/-- One replacement step for `strReplace`; fuel as in `pySplitAux`. -/
def strReplaceAux (pat rep : List Char) : Nat → List Char → List Char
  | _, [] => []
  | 0, s => s
  | fuel + 1, c :: t =>
      if pat ≠ [] ∧ pat.isPrefixOf (c :: t) then
        rep ++ strReplaceAux pat rep fuel ((c :: t).drop pat.length)
      else
        c :: strReplaceAux pat rep fuel t

/-- Embedding of Python `s.replace(old, new)`: replace every
non-overlapping occurrence, left to right. -/
def strReplace (s pat rep : String) : String :=
  String.mk (strReplaceAux pat.data rep.data s.data.length s.data)

/-- Python-set insertion: add an element unless already present. -/
def setAdd (s : List String) (x : String) : List String :=
  if x ∈ s then s else s ++ [x]

/-- Python `s.update(t)` on sets: insert every element of `t`. -/
def setUnion (s t : List String) : List String :=
  t.foldl setAdd s

/-- Python `s.issuperset(t)`. -/
def isSuperset (s t : List String) : Bool :=
  t.all (fun x => decide (x ∈ s))

/-! ## The compiled-regex collaborator -/

/-- AST of compiled regular expressions, covering the constructs the
verified properties exercise.  `never` is the embedding of the source's
constant fallback `re.compile(r'(?!x)x')`, which matches no input. -/
inductive RE where
  | eps : RE
  | lit : Char → RE
  | cat : RE → RE → RE
  | opt : RE → RE
  | grp : Nat → RE → RE
  | never : RE
deriving DecidableEq, Repr

/-- All prefix matches of `r` against `s`, in Python backtracking
priority order.  Each entry is (number of characters consumed, captured
groups as an association list from group index to captured text).
Comparison is case-insensitive, matching the source's universal `re.I`. -/
def reMatchList : RE → List Char → List (Nat × List (Nat × String))
  | RE.eps, _ => [(0, [])]
  | RE.never, _ => []
  | RE.lit c, s =>
      match s with
      | [] => []
      | d :: _ => if d.toLower = c.toLower then [(1, [])] else []
  | RE.cat a b, s =>
      (reMatchList a s).flatMap (fun p =>
        (reMatchList b (s.drop p.1)).map (fun q => (p.1 + q.1, p.2 ++ q.2)))
  | RE.opt a, s => reMatchList a s ++ [(0, [])]
  | RE.grp k a, s =>
      (reMatchList a s).map (fun p => (p.1, p.2 ++ [(k, String.mk (s.take p.1))]))

/-- Highest capture-group index occurring in the pattern. -/
def maxGroup : RE → Nat
  | RE.eps | RE.never | RE.lit _ => 0
  | RE.cat a b => max (maxGroup a) (maxGroup b)
  | RE.opt a => maxGroup a
  | RE.grp k a => max k (maxGroup a)

/-- Does the pattern match starting at some position of the suffix list? -/
def searchFrom (r : RE) : List Char → Bool
  | [] => !(reMatchList r []).isEmpty
  | c :: t => !(reMatchList r (c :: t)).isEmpty || searchFrom r t

/-- Embedding of the truthiness of Python `re.search(r, s)`. -/
def reSearch (r : RE) (s : String) : Bool :=
  searchFrom r s.data

/-- Lookup of a captured group's text; a group that did not participate
in the match yields `""`, as `re.findall` does. -/
def capLookup (caps : List (Nat × String)) (k : Nat) : String :=
  match caps.find? (fun p => p.1 = k) with
  | some p => p.2
  | none => ""

/-- The tuple `re.findall` yields for one occurrence, already normalized
the way the source normalizes it (`isinstance(occurrence, str)` wraps a
group-less whole match into a one-element list). -/
def occGroups (r : RE) (s : List Char) (n : Nat) (caps : List (Nat × String)) :
    List String :=
  if maxGroup r = 0 then [String.mk (s.take n)]
  else (List.range (maxGroup r)).map (fun i => capLookup caps (i + 1))

/-- Scanning loop of `re.findall`: leftmost matches, non-overlapping,
advancing by one position after a zero-width match.  Fuel as in
`pySplitAux`. -/
def findallAux (r : RE) : Nat → List Char → List (List String)
  | _, [] =>
      match (reMatchList r []).head? with
      | some p => [occGroups r [] p.1 p.2]
      | none => []
  | 0, _ => []
  | fuel + 1, c :: t =>
      match (reMatchList r (c :: t)).head? with
      | none => findallAux r fuel t
      | some p =>
          occGroups r (c :: t) p.1 p.2 ::
            findallAux r fuel ((c :: t).drop (max p.1 1))

/-- Embedding of Python `re.findall(r, s)` composed with the source's
wrap-into-list normalization of each occurrence. -/
def reFindall (r : RE) (s : String) : List (List String) :=
  findallAux r s.data.length s.data

/-- A case-insensitive literal pattern: the compilation of a regex
source string that contains no metacharacters. -/
def litRE (s : String) : RE :=
  s.data.foldr (fun c r => RE.cat (RE.lit c) r) RE.eps

/-- The external `re.compile` collaborator: `none` models `re.error`. -/
def Compile : Type := String → Option RE

/-- Sanity: the never-matching fallback regex matches nothing. -/
theorem reMatchList_never (s : List Char) : reMatchList RE.never s = [] := rfl

theorem searchFrom_never (s : List Char) : searchFrom RE.never s = false := by
  induction s with
  | nil => rfl
  | cons c t ih => simp [searchFrom, reMatchList, ih]

theorem reSearch_never (s : String) : reSearch RE.never s = false :=
  searchFrom_never s.data

example : reSearch (litRE "a") "bca" = true := by decide
example : reSearch (litRE "A") "bca" = true := by decide
example : reSearch (litRE "ab") "ba" = false := by decide
example : reFindall (litRE "a") "a" = [["a"]] := by decide
example :
    reFindall (RE.cat (RE.lit 'a') (RE.grp 1 (RE.opt (RE.lit 'x')))) "ax" =
      [["x"]] := by decide
example :
    reFindall (RE.cat (RE.lit 'a') (RE.grp 1 (RE.opt (RE.lit 'x')))) "a" =
      [[""]] := by decide
example : pySplit "a\\;version:\\1" "\\;" = ["a", "version:\\1"] := by decide
example : strReplace "ab\\1cd" "\\1" "X" = "abXcd" := by decide

/-! ## Raw database values and load-time normalization (`ApplicationData`) -/

/-- Raw JSON-like values of the signature-database file. -/
inductive JVal where
  | str : String → JVal
  | num : Int → JVal
  | list : List JVal → JVal
  | dict : List (String × JVal) → JVal

/-- Embedding of the Python exceptions the source can raise, plus the
artificial `fuel` marker of the fuelled fixed-point loop (proved
unreachable below). -/
inductive Err where
  | keyError : String → Err
  | attributeError : Err
  | typeError : Err
  | notADict : String → JVal → Err
  | fuel : Err

/-- Embedding of Python `str(value)`.  Scalars are rendered exactly;
the rendering of containers (never exercised by the database fields the
source coerces) is abstracted to a fixed marker. -/
def jvalStr : JVal → String
  | JVal.str s => s
  | JVal.num n => toString n
  | JVal.list _ => "<list>"
  | JVal.dict _ => "<dict>"

def listFields : List String := ["cats", "html", "implies", "script"]

def dictFields : List String := ["meta", "js", "cookies", "headers"]

def stringFields : List String := ["url", "icon", "website", "cpe"]

/-- One list-field step of `ApplicationData.normalize_applications`:
absent field becomes `[]`, a non-list value is wrapped in a singleton
list, a list is kept. -/
def normListField (kvs : List (String × JVal)) (f : String) : List (String × JVal) :=
  match dictGet kvs f with
  | none => dictSet kvs f (JVal.list [])
  | some (JVal.list _) => kvs
  | some v => dictSet kvs f (JVal.list [v])

/-- The source's key-lowering dict comprehension
(later duplicates overwrite earlier ones, as in a Python dict). -/
def lowerKeys (d : List (String × JVal)) : List (String × JVal) :=
  d.foldl (fun acc kv => dictSet acc (pyLower kv.1) kv.2) []

/-- One dict-field step of `ApplicationData.normalize_applications`:
absent field becomes `{}`, a non-dict raises `ApplicationDataException`
(carrying the field name and the application object), keys of a dict
are lower-cased. -/
def normDictField (kvs : List (String × JVal)) (f : String) :
    Except Err (List (String × JVal)) :=
  match dictGet kvs f with
  | none => Except.ok (dictSet kvs f (JVal.dict []))
  | some (JVal.dict d) => Except.ok (dictSet kvs f (JVal.dict (lowerKeys d)))
  | some _ => Except.error (Err.notADict f (JVal.dict kvs))

/-- One string-field step of `ApplicationData.normalize_applications`:
absent field becomes `""`, a non-string is coerced with `str(...)`. -/
def normStringField (kvs : List (String × JVal)) (f : String) : List (String × JVal) :=
  match dictGet kvs f with
  | none => dictSet kvs f (JVal.str "")
  | some (JVal.str _) => kvs
  | some v => dictSet kvs f (JVal.str (jvalStr v))

/-- Shape normalization of one application entry, in source order:
list fields, then dict fields, then string fields. -/
def normalizeApp (kvs : List (String × JVal)) : Except Err (List (String × JVal)) :=
  match exceptFoldl normDictField (listFields.foldl normListField kvs) dictFields with
  | Except.error e => Except.error e
  | Except.ok kvs2 => Except.ok (stringFields.foldl normStringField kvs2)

/-- Embedding of `ApplicationData.normalize_applications`.  An
application entry that is not itself a mapping makes the Python code
fail on its first field access; this is the `typeError` branch. -/
def normalizeAppEntry (na : String × JVal) : Except Err (String × JVal) :=
  match na.2 with
  | JVal.dict kvs => (normalizeApp kvs).map (fun kvs2 => (na.1, JVal.dict kvs2))
  | _ => Except.error Err.typeError

def normalize_applications (apps : List (String × JVal)) :
    Except Err (List (String × JVal)) :=
  exceptMap normalizeAppEntry apps

/-! ## Pattern compilation (`ApplicationData.normalize_regex` and friends) -/

/-- Value stored under the `'regex'` key of the source's `regex_params`
dict.  Normally it is the compiled pattern object, but because the
parameter loop of `normalize_regex` assigns `regex_params[param] = ...`
into the very same dict, a later `\;`-segment named `regex` overwrites
the entry with its plain string value; the `re` module then receives
that string at each later `re.search` / `re.findall` call. -/
inductive PatSlot where
  | compiled : RE → PatSlot
  | overwritten : String → PatSlot
deriving DecidableEq, Repr

/-- The source's `regex_params` dict, viewed through the keys the
program reads: `application_pattern` and `regex` are the two
distinguished entries (both can be overwritten by a parameter segment
of the same name, since everything lives in one dict), and `params`
holds the remaining `key:value` segments (of which the program reads
only `version`). -/
structure RegexParams where
  application_pattern : String
  regex : PatSlot
  params : List (String × String)
deriving DecidableEq, Repr

/-- The `re` module's call-time behavior on a *string* pattern, as
happens exactly when an overwritten `'regex'` entry reaches
`re.search` / `re.findall`: the module compiles the string at the call
site, without `re.I`.  External collaborator, universally quantified in
the theorems.  (A raw pattern that fails to compile makes the call
raise `re.error`; no property below evaluates the collaborator at such
a pattern, so it is modelled on the compiling domain.) -/
structure ReModule where
  searchStr : String → String → Bool
  findallStr : String → String → List (List String)

/-- `re.search(regex_params['regex'], s)`: a compiled pattern object is
searched directly, an overwritten string value goes through the `re`
module's call-time string handling. -/
def slotSearch (reMod : ReModule) (v : PatSlot) (s : String) : Bool :=
  match v with
  | PatSlot.compiled r => reSearch r s
  | PatSlot.overwritten p => reMod.searchStr p s

/-- `re.findall(regex_params['regex'], s)`, split by slot like
`slotSearch`. -/
def slotFindall (reMod : ReModule) (v : PatSlot) (s : String) : List (List String) :=
  match v with
  | PatSlot.compiled r => reFindall r s
  | PatSlot.overwritten p => reMod.findallStr p s

/-- Joining of the tail of a `:`-split, i.e. Python
`':'.join(splitted_param_pattern)` after the `pop(0)`. -/
def joinColon : List String → String
  | [] => ""
  | [x] => x
  | x :: y :: t => x ++ ":" ++ joinColon (y :: t)

/-- Parameter-segment step of `normalize_regex` (the `i > 0` branch of
the source's `enumerate` loop): a segment with no `:` is ignored;
otherwise the part before the first `:` names the dict key that is
assigned.  A segment named `application_pattern` or `regex` therefore
overwrites the corresponding distinguished entry (dict aliasing in the
source); any other name lands among the parameters. -/
def parseParamSeg (rpw : RegexParams × Bool) (expression : String) :
    RegexParams × Bool :=
  match pySplit expression ":" with
  | [] => rpw
  | [_] => rpw
  | p :: q :: t =>
      if p = "application_pattern" then
        ({ rpw.1 with application_pattern := joinColon (q :: t) }, rpw.2)
      else if p = "regex" then
        ({ rpw.1 with regex := PatSlot.overwritten (joinColon (q :: t)) }, rpw.2)
      else
        ({ rpw.1 with params := dictSet rpw.1.params p (joinColon (q :: t)) }, rpw.2)

/-- Embedding of `ApplicationData.normalize_regex`.  The first
`\;`-segment is the regex source: if `compile` fails on it, the
never-matching fallback `(?!x)x` is installed and the Boolean component
records that `warnings.warn` was called.  Remaining segments are dict
assignments (`parseParamSeg`).  (`pySplit` never returns `[]`; that
branch is dead.) -/
def normalize_regex (compile : Compile) (pattern : String) : RegexParams × Bool :=
  match pySplit pattern "\\;" with
  | [] =>
      ({ application_pattern := "", regex := PatSlot.compiled RE.never,
         params := [] }, true)
  | seg0 :: rest =>
      let base : RegexParams × Bool :=
        match compile seg0 with
        | some r =>
            ({ application_pattern := seg0, regex := PatSlot.compiled r,
               params := [] }, false)
        | none =>
            ({ application_pattern := seg0, regex := PatSlot.compiled RE.never,
               params := [] }, true)
      rest.foldl parseParamSeg base

/-- Normalized application entry, after both normalization passes.
`url` is `none` when the source leaves the field as the string `''`
(the field is only compiled when non-empty).  The unused raw `js` field
is not carried.  `versions` is absent (`none`) until detection first
records a version. -/
structure App where
  cats : List JVal
  html : List RegexParams
  implies : List RegexParams
  script : List RegexParams
  meta : List (String × RegexParams)
  cookies : List (String × RegexParams)
  headers : List (String × RegexParams)
  url : Option RegexParams
  icon : String
  website : String
  cpe : String
  versions : Option (List String)

/-- Compilation of one pattern-list field (`html`, `implies`, `script`):
each element must be a string (a non-string would make the Python
`pattern.split` call fail). -/
def normalizePatternList (compile : Compile) (v : Option JVal) :
    Except Err (List RegexParams) :=
  match v with
  | some (JVal.list xs) =>
      exceptMap (fun x =>
        match x with
        | JVal.str p => Except.ok (normalize_regex compile p).1
        | _ => Except.error Err.attributeError) xs
  | _ => Except.error Err.typeError

/-- Compilation of one dict field (`meta`, `cookies`, `headers`): an
empty pattern string is replaced by the key itself before compiling
(the source's "looking for key seems to be interesting" branch). -/
def normalizeDictRules (compile : Compile) (v : Option JVal) :
    Except Err (List (String × RegexParams)) :=
  match v with
  | some (JVal.dict d) =>
      exceptMap (fun kv =>
        match kv.2 with
        | JVal.str p =>
            Except.ok (kv.1, (normalize_regex compile (if p = "" then kv.1 else p)).1)
        | _ => Except.error Err.attributeError) d
  | _ => Except.error Err.typeError

/-- Compilation of the scalar `url` field: only a non-empty string is
compiled; the empty string stays uncompiled (`none`). -/
def normalizeUrl (compile : Compile) (v : Option JVal) :
    Except Err (Option RegexParams) :=
  match v with
  | some (JVal.str u) =>
      if u = "" then Except.ok none
      else Except.ok (some (normalize_regex compile u).1)
  | _ => Except.error Err.typeError

def getCats : Option JVal → Except Err (List JVal)
  | some (JVal.list xs) => Except.ok xs
  | _ => Except.error Err.typeError

def getStrField : Option JVal → Except Err String
  | some (JVal.str s) => Except.ok s
  | _ => Except.error Err.typeError

/-- Embedding of `ApplicationData.normalize_application_regex` for one
application entry (assumed shape-normalized), producing the structured
`App` value. -/
def normalizeAppRegex (compile : Compile) (kvs : List (String × JVal)) :
    Except Err App := do
  let html ← normalizePatternList compile (dictGet kvs "html")
  let implies ← normalizePatternList compile (dictGet kvs "implies")
  let script ← normalizePatternList compile (dictGet kvs "script")
  let meta ← normalizeDictRules compile (dictGet kvs "meta")
  let cookies ← normalizeDictRules compile (dictGet kvs "cookies")
  let headers ← normalizeDictRules compile (dictGet kvs "headers")
  let url ← normalizeUrl compile (dictGet kvs "url")
  let cats ← getCats (dictGet kvs "cats")
  let icon ← getStrField (dictGet kvs "icon")
  let website ← getStrField (dictGet kvs "website")
  let cpe ← getStrField (dictGet kvs "cpe")
  pure { cats := cats, html := html, implies := implies, script := script,
         meta := meta, cookies := cookies, headers := headers, url := url,
         icon := icon, website := website, cpe := cpe, versions := none }

/-- Embedding of `ApplicationData.normalize_application_regex` over the
whole application table. -/
def normalize_application_regex (compile : Compile)
    (apps : List (String × JVal)) : Except Err (List (String × App)) :=
  exceptMap (fun na =>
    match na.2 with
    | JVal.dict kvs => (normalizeAppRegex compile kvs).map (fun a => (na.1, a))
    | _ => Except.error Err.typeError) apps

/-- A category entry after `normalize_categories` (which guarantees the
`name` field is present). -/
structure Category where
  name : String
deriving DecidableEq, Repr

/-! ## Page snapshot (`WebContent`, external collaborator) -/

/-- The already-fetched-and-parsed page snapshot the engine consumes.
The case-insensitive header container of the `requests` library is
abstracted as a plain key-value list (no verified property depends on
header-key folding). -/
structure WebContent where
  url : String
  html : String
  headers : List (String × String)
  cookies : List (String × String)
  scripts : List String
  meta_data : List (String × String)
deriving DecidableEq, Repr

/-! ## Version-template interpreter (`Wappalyzer.update_version_detected`) -/

/-- First-`:` split with a non-empty head, i.e. the `([^:]+):(.*)$` part
of the source's ternary meta-regex at one candidate position. -/
def splitColon : List Char → Option (List Char × List Char)
  | [] => none
  | c :: t =>
      if c = ':' then some ([], t)
      else
        match splitColon t with
        | some p => some (c :: p.1, p.2)
        | none => none

/-- Search of the source's ternary meta-regex
`re.compile('\\\\' + str(i + 1) + '\\?([^:]+):(.*)$', re.I)`
inside the version template: scan left to right for the literal
`\N?`, then at least one non-`:` character, then `:`, then the rest of
the template (the whole match extends to the end of the string because
of `(.*)$`).  Returns (whole match, group 1, group 2). -/
def findTernaryAux (pre : List Char) : List Char → Option (List Char × List Char × List Char)
  | [] => none
  | c :: t =>
      if pre.isPrefixOf (c :: t) then
        match splitColon ((c :: t).drop pre.length) with
        | some p =>
            if p.1 ≠ [] then some (c :: t, p.1, p.2)
            else findTernaryAux pre t
        | none => findTernaryAux pre t
      else findTernaryAux pre t

/-- Body of the source's `for i, match in enumerate(occurrence)` loop
for one group: resolve a `\N?TRUE:FALSE` ternary for group index `i1`
(choosing by whether the captured text is non-empty), then substitute
the plain back-reference `\N`. -/
def resolveGroup (i1 : Nat) (mtch : String) (version_pattern : String) : String :=
  let pre : List Char := '\\' :: (toString i1).data ++ ['?']
  let vp1 :=
    match findTernaryAux pre version_pattern.data with
    | some w =>
        strReplace version_pattern (String.mk w.1)
          (if mtch ≠ "" then String.mk w.2.1 else String.mk w.2.2)
    | none => version_pattern
  strReplace vp1 (String.mk ('\\' :: (toString i1).data)) mtch

/-- The enumerate loop over one occurrence's groups (indices start at
`i + 1 = 1`). -/
def applyOccAux : Nat → List String → String → String
  | _, [], vp => vp
  | i, m :: ms, vp => applyOccAux (i + 1) ms (resolveGroup (i + 1) m vp)

/-- Full resolution of a version template against one `findall`
occurrence. -/
def applyOcc (occurrence : List String) (version_pattern : String) : String :=
  applyOccAux 0 occurrence version_pattern

/-- The source's lines 314-318: append a fully resolved version string
unless it is empty or already recorded; create the `versions` entry on
first use. -/
def addVersion (application : App) (version_pattern : String) : App :=
  if version_pattern ≠ "" then
    match application.versions with
    | none => { application with versions := some [version_pattern] }
    | some vs =>
        if version_pattern ∈ vs then application
        else { application with versions := some (vs ++ [version_pattern]) }
  else application

/-- Embedding of `Wappalyzer.update_version_detected`. -/
def update_version_detected (reMod : ReModule) (application : App)
    (regex_params : RegexParams) (content : String) : App :=
  match dictGet regex_params.params "version" with
  | none => application
  | some version =>
      (slotFindall reMod regex_params.regex content).foldl
        (fun app occurrence => addVersion app (applyOcc occurrence version))
        application

/-! ## Per-field checks and `Wappalyzer.is_application_detected` -/

inductive ListField where
  | html | script
deriving DecidableEq, Repr

inductive DictField where
  | cookies | headers | meta
deriving DecidableEq, Repr

/-- The source's `application[content_type]` for a list field. -/
def listFieldOf (application : App) : ListField → List RegexParams
  | ListField.html => application.html
  | ListField.script => application.script

/-- The source's `application[content_type]` for a dict field. -/
def dictFieldOf (application : App) : DictField → List (String × RegexParams)
  | DictField.cookies => application.cookies
  | DictField.headers => application.headers
  | DictField.meta => application.meta

/-- Embedding of `Wappalyzer.is_application_detected_normalize_string`
(only used with `content_type = 'url'`): nothing is checked when the
normalized field is the empty string. -/
def is_application_detected_normalize_string (reMod : ReModule)
    (application : App) (contents : String) : Bool × App :=
  match application.url with
  | none => (false, application)
  | some regex_params =>
      if slotSearch reMod regex_params.regex contents then
        (true, update_version_detected reMod application regex_params contents)
      else (false, application)

/-- Embedding of `Wappalyzer.is_application_detected_normalize_list`:
every pattern is tried against every content entry; detection latches
but iteration never stops early. -/
def is_application_detected_normalize_list (reMod : ReModule)
    (application : App) (content_type : ListField) (contents : List String) :
    Bool × App :=
  (listFieldOf application content_type).foldl
    (fun acc regex_params =>
      contents.foldl
        (fun acc content =>
          if slotSearch reMod regex_params.regex content then
            (true, update_version_detected reMod acc.2 regex_params content)
          else acc)
        acc)
    (false, application)

/-- Embedding of `Wappalyzer.is_application_detected_normalize_dict`:
for each rule key present in the snapshot mapping, the rule regex is
searched in the value stored under that key. -/
def is_application_detected_normalize_dict (reMod : ReModule)
    (application : App) (content_type : DictField)
    (contents : List (String × String)) : Bool × App :=
  (dictFieldOf application content_type).foldl
    (fun acc kv =>
      match dictGet contents kv.1 with
      | none => acc
      | some v =>
          if slotSearch reMod kv.2.regex v then
            (true, update_version_detected reMod acc.2 kv.2 v)
          else acc)
    (false, application)

/-- Python iteration over the HTML body string yields its characters:
the source passes the raw `web_html` string where
`is_application_detected_normalize_list` expects an iterable, so each
"content" is a one-character string. -/
def charsOf (s : String) : List String :=
  s.data.map (fun c => String.mk [c])

/-- Embedding of `Wappalyzer.is_application_detected`.  The source
combines the six per-field checks with Python `or`, which evaluates
left to right and stops at the first check that returns `True`; the
threaded `App` value carries the `versions` mutation. -/
def is_application_detected (reMod : ReModule) (web_content : WebContent)
    (application : App) : Bool × App :=
  let r1 := is_application_detected_normalize_string reMod application
    web_content.url
  if r1.1 then (true, r1.2) else
  let r2 := is_application_detected_normalize_list reMod r1.2 ListField.html
    (charsOf web_content.html)
  if r2.1 then (true, r2.2) else
  let r3 := is_application_detected_normalize_list reMod r2.2 ListField.script
    web_content.scripts
  if r3.1 then (true, r3.2) else
  let r4 := is_application_detected_normalize_dict reMod r3.2 DictField.cookies
    web_content.cookies
  if r4.1 then (true, r4.2) else
  let r5 := is_application_detected_normalize_dict reMod r4.2 DictField.headers
    web_content.headers
  if r5.1 then (true, r5.2) else
  is_application_detected_normalize_dict reMod r5.2 DictField.meta
    web_content.meta_data

/-- Modelled from the spec: the specification's reading of
`is_application_detected`, in which "short-circuiting is NOT applied —
all six field checks run regardless of earlier matches".  Kept separate
from the source embedding so the two can be compared. -/
def spec_all_checks_detected (reMod : ReModule) (web_content : WebContent)
    (application : App) : Bool × App :=
  let r1 := is_application_detected_normalize_string reMod application
    web_content.url
  let r2 := is_application_detected_normalize_list reMod r1.2 ListField.html
    (charsOf web_content.html)
  let r3 := is_application_detected_normalize_list reMod r2.2 ListField.script
    web_content.scripts
  let r4 := is_application_detected_normalize_dict reMod r3.2 DictField.cookies
    web_content.cookies
  let r5 := is_application_detected_normalize_dict reMod r4.2 DictField.headers
    web_content.headers
  let r6 := is_application_detected_normalize_dict reMod r5.2 DictField.meta
    web_content.meta_data
  (r1.1 || r2.1 || r3.1 || r4.1 || r5.1 || r6.1, r6.2)

/-! ## Implication resolver -/

/-- Loop body of `Wappalyzer.get_implied_applications`: the source
indexes `self.applications[application_name]` directly, so a name
absent from the database raises `KeyError`. -/
def impliedStep (applications : List (String × App)) (acc : List String)
    (application_name : String) : Except Err (List String) :=
  match dictGet applications application_name with
  | none => Except.error (Err.keyError application_name)
  | some app =>
      Except.ok (setUnion acc (app.implies.map (fun rp => rp.application_pattern)))

/-- Embedding of `Wappalyzer.get_implied_applications`. -/
def get_implied_applications (applications : List (String × App))
    (names : List String) : Except Err (List String) :=
  exceptFoldl (impliedStep applications) [] names

/-- Every name any application's `implies` patterns can ever produce. -/
def impliedUniverse (applications : List (String × App)) : List String :=
  applications.foldl
    (fun acc na => acc ++ na.2.implies.map (fun rp => rp.application_pattern)) []

/-- The `while not final.issuperset(init)` loop of
`Wappalyzer.get_rec_implied_applications`, with fuel.  The fuel bound
used by the wrapper is proved sufficient below, so `Err.fuel` is
unreachable. -/
def get_rec_aux (applications : List (String × App)) :
    Nat → List String → List String → Except Err (List String)
  | 0, _, _ => Except.error Err.fuel
  | fuel + 1, final, init =>
      if isSuperset final init then Except.ok final
      else
        let final2 := setUnion final init
        match get_implied_applications applications final2 with
        | Except.error e => Except.error e
        | Except.ok init2 => get_rec_aux applications fuel final2 init2

/-- Embedding of `Wappalyzer.get_rec_implied_applications`. -/
def get_rec_implied_applications (applications : List (String × App))
    (detected_applications : List String) : Except Err (List String) :=
  match get_implied_applications applications detected_applications with
  | Except.error e => Except.error e
  | Except.ok init =>
      get_rec_aux applications ((impliedUniverse applications).length + 2) [] init

/-! ## Result projection -/

/-- Embedding of `Wappalyzer.get_categories`.  When a category id has
no entry, `self.categories.get(str(id), "")` evaluates to the string
`""`, and the trailing `.get("name", "")` is an attribute access on a
`str`, which raises `AttributeError`. -/
def get_categories (applications : List (String × App))
    (categories : List (String × Category)) (application_name : String) :
    Except Err (List String) :=
  let category_numbers :=
    match dictGet applications application_name with
    | none => []
    | some a => a.cats
  exceptMap
    (fun category_number =>
      match dictGet categories (jvalStr category_number) with
      | some category => Except.ok category.name
      | none => Except.error Err.attributeError)
    category_numbers

/-- Embedding of `Wappalyzer.get_versions`. -/
def get_versions (applications : List (String × App))
    (application_name : String) : Except Err (List String) :=
  match dictGet applications application_name with
  | none => Except.error (Err.keyError application_name)
  | some a =>
      Except.ok (match a.versions with
        | none => []
        | some vs => vs)

/-- The first loop of `Wappalyzer.detect`: run
`is_application_detected` on every application, collecting detected
names and the version-mutated application table. -/
def detectPass (reMod : ReModule) (web_content : WebContent)
    (applications : List (String × App)) :
    List String × List (String × App) :=
  applications.foldl
    (fun acc na =>
      let r := is_application_detected reMod web_content na.2
      ((if r.1 then acc.1 ++ [na.1] else acc.1), acc.2 ++ [(na.1, r.2)]))
    ([], [])

/-- Embedding of `Wappalyzer.detect`: direct detection followed by the
union with the implied-application closure.  Also returns the mutated
application table (the source mutates `self.applications` in place). -/
def detect (reMod : ReModule) (web_content : WebContent)
    (applications : List (String × App)) :
    Except Err (List String × List (String × App)) :=
  let dp := detectPass reMod web_content applications
  match get_rec_implied_applications dp.2 dp.1 with
  | Except.error e => Except.error e
  | Except.ok implied => Except.ok (setUnion dp.1 implied, dp.2)

/-- Embedding of `Wappalyzer.detect_with_versions`. -/
def detect_with_versions (reMod : ReModule) (web_content : WebContent)
    (applications : List (String × App)) :
    Except Err (List (String × List String)) :=
  match detect reMod web_content applications with
  | Except.error e => Except.error e
  | Except.ok d =>
      exceptMap (fun name => (get_versions d.2 name).map (fun vs => (name, vs))) d.1

/-- Embedding of `Wappalyzer.detect_with_versions_and_categories`. -/
def detect_with_versions_and_categories (reMod : ReModule)
    (web_content : WebContent) (applications : List (String × App))
    (categories : List (String × Category)) :
    Except Err (List (String × List String × List String)) :=
  match detect reMod web_content applications with
  | Except.error e => Except.error e
  | Except.ok d =>
      match exceptMap (fun name => (get_versions d.2 name).map (fun vs => (name, vs))) d.1 with
      | Except.error e => Except.error e
      | Except.ok versioned =>
          exceptMap (fun p =>
            (get_categories d.2 categories p.1).map (fun cats => (p.1, p.2, cats)))
            versioned

/-! ## Concrete fixtures used by counterexamples and witnesses -/

/-- An application with every rule field empty (the normalized shape of
the raw entry `{}` apart from `cats`). -/
def emptyApp : App :=
  { cats := [], html := [], implies := [], script := [], meta := [],
    cookies := [], headers := [], url := none, icon := "", website := "",
    cpe := "", versions := none }

/-- A snapshot with no content at all. -/
def emptyWC : WebContent :=
  { url := "", html := "", headers := [], cookies := [], scripts := [],
    meta_data := [] }

/-- Case-sensitive literal substring search: the behavior of flagless
`re.search(p, s)` for a metacharacter-free string pattern `p`. -/
def litSearchCS (pat : List Char) : List Char → Bool
  | [] => pat.isPrefixOf []
  | c :: t => pat.isPrefixOf (c :: t) || litSearchCS pat t

/-- Case-sensitive non-overlapping literal occurrences: the behavior of
flagless `re.findall(p, s)` for a metacharacter-free, non-empty string
pattern `p` (no groups, so each occurrence is the whole match).  Fuel as
in `pySplitAux`. -/
def litFindallCS (pat : List Char) : Nat → List Char → List (List String)
  | _, [] => []
  | 0, _ => []
  | fuel + 1, c :: t =>
      if pat ≠ [] ∧ pat.isPrefixOf (c :: t) then
        [String.mk pat] :: litFindallCS pat fuel ((c :: t).drop pat.length)
      else litFindallCS pat fuel t

/-- The `re`-module collaborator instantiated for metacharacter-free,
non-empty string patterns — the only points at which any closed
evaluation below consults it (e.g. `re.search("x", "xyz")` matches). -/
def reModLit : ReModule :=
  { searchStr := fun p s => litSearchCS p.data s.data,
    findallStr := fun p s => litFindallCS p.data s.data.length s.data }

/-- Pattern `a\;version:1` compiled: matches a literal `a`, carries
version template `1`. -/
def rpUrl1 : RegexParams :=
  { application_pattern := "a", regex := PatSlot.compiled (litRE "a"),
    params := [("version", "1")] }

/-- Pattern `b\;version:2` compiled. -/
def rpCookie2 : RegexParams :=
  { application_pattern := "b", regex := PatSlot.compiled (litRE "b"),
    params := [("version", "2")] }

/-- Application whose `url` rule and whose `cookies` rule both match the
fixture snapshot `wcC1`, each carrying its own version template. -/
def appC1 : App :=
  { emptyApp with url := some rpUrl1, cookies := [("k", rpCookie2)] }

/-- Snapshot matched by both rules of `appC1`. -/
def wcC1 : WebContent :=
  { url := "a", html := "", headers := [], cookies := [("k", "b")],
    scripts := [], meta_data := [] }

example :
    (is_application_detected reModLit wcC1 appC1).2.versions = some ["1"] := by
  decide
example :
    (is_application_detected_normalize_dict reModLit appC1 DictField.cookies
      wcC1.cookies).1 = true := by decide
example :
    (is_application_detected_normalize_dict reModLit appC1 DictField.cookies
      wcC1.cookies).2.versions = some ["2"] := by decide
example :
    (spec_all_checks_detected reModLit wcC1 appC1).2.versions =
      some ["1", "2"] := by decide

/-- An application whose only content is its `implies` list (regexes of
`implies` patterns are irrelevant to the resolver, which reads only
`application_pattern`). -/
def impApp (names : List String) : App :=
  { emptyApp with
    implies := names.map (fun n =>
      { application_pattern := n, regex := PatSlot.compiled RE.never,
        params := [] }) }

/-- Database of the claim's transitive-closure scenario:
A implies B, B implies C. -/
def dbChain : List (String × App) :=
  [("A", impApp ["B"]), ("B", impApp ["C"]), ("C", impApp [])]

/-- The cyclic variant: B also implies A. -/
def dbCycle : List (String × App) :=
  [("A", impApp ["B"]), ("B", impApp ["C", "A"]), ("C", impApp [])]

/-- Database in which A implies a name that has no entry. -/
def dbGhost : List (String × App) :=
  [("A", impApp ["Ghost"])]

example : get_rec_implied_applications dbChain ["A"] = Except.ok ["B", "C"] := rfl
example :
    get_rec_implied_applications dbCycle ["A"] = Except.ok ["B", "C", "A"] := rfl
example :
    get_rec_implied_applications dbGhost ["A"] =
      Except.error (Err.keyError "Ghost") := rfl

/-- Pattern `a` with no version parameter. -/
def rpPlainA : RegexParams :=
  { application_pattern := "a", regex := PatSlot.compiled (litRE "a"),
    params := [] }

/-- Application detected via its `url` rule whose `cats` references
category id 7, absent from `catsTable`. -/
def appBadCat : App :=
  { emptyApp with url := some rpPlainA, cats := [JVal.num 7] }

def dbBadCat : List (String × App) := [("X", appBadCat)]

/-- Category table that knows only id 1. -/
def catsTable : List (String × Category) := [("1", { name := "CMS" })]

/-- Snapshot whose URL matches `appBadCat`'s url rule. -/
def wcUrlA : WebContent :=
  { url := "a", html := "", headers := [], cookies := [], scripts := [],
    meta_data := [] }

example :
    detect_with_versions_and_categories reModLit wcUrlA dbBadCat catsTable =
      Except.error Err.attributeError := rfl
example :
    get_categories dbBadCat catsTable "X" = Except.error Err.attributeError := rfl

/-- The ternary-template fixture regex `a(x?)`: group 1 captures `x`
when present, the empty string otherwise. -/
def reAX : RE := RE.cat (RE.lit 'a') (RE.grp 1 (RE.opt (RE.lit 'x')))

/-- Pattern `a(x?)\;version:\1?Pro:Free` compiled. -/
def rpTernary : RegexParams :=
  { application_pattern := "a(x?)", regex := PatSlot.compiled reAX,
    params := [("version", "\\1?Pro:Free")] }

example :
    (update_version_detected reModLit emptyApp rpTernary "ax").versions =
      some ["Pro"] := by decide
example :
    (update_version_detected reModLit emptyApp rpTernary "a").versions =
      some ["Free"] := by decide
example : applyOcc ["x"] "\\1?Pro:Free" = "Pro" := by decide
example : applyOcc [""] "\\1?Pro:Free" = "Free" := by decide
example : applyOcc ["2.3"] "\\1" = "2.3" := by decide

/-- The `re.compile` collaborator on literal patterns (no
metacharacters), as exercised by the concrete fixtures. -/
def litCompile : Compile := fun s => some (litRE s)

example :
    normalizeDictRules litCompile (some (JVal.dict [("session_id", JVal.str "")])) =
      Except.ok [("session_id", (normalize_regex litCompile "session_id").1)] := rfl
example :
    (is_application_detected_normalize_dict reModLit
      { emptyApp with cookies := [("session_id", (normalize_regex litCompile "session_id").1)] }
      DictField.cookies [("session_id", "abc")]).1 = false := by decide
example :
    (is_application_detected_normalize_dict reModLit
      { emptyApp with cookies := [("session_id", (normalize_regex litCompile "session_id").1)] }
      DictField.cookies [("session_id", "my session_id value")]).1 = true := by decide
example :
    normalize_regex (fun _ => none) "PHP/(\\d+\\.\\d+)\\;version:\\1" =
      ({ application_pattern := "PHP/(\\d+\\.\\d+)",
         regex := PatSlot.compiled RE.never,
         params := [("version", "\\1")] }, true) := rfl

/-! ## Support lemmas -/

/-- The parameter-segment shapes that leave the `'regex'` dict entry
untouched: either the segment has no `:` at all, or the key before the
first `:` is not the distinguished name `regex`. -/
def notRegexParam (e : String) : Prop :=
  (pySplit e ":").length ≤ 1 ∨ (pySplit e ":").headD "" ≠ "regex"

instance (e : String) : Decidable (notRegexParam e) := by
  unfold notRegexParam
  infer_instance

theorem parseParamSeg_warned (rpw : RegexParams × Bool) (e : String) :
    (parseParamSeg rpw e).2 = rpw.2 := by
  unfold parseParamSeg
  split
  · rfl
  · rfl
  · split
    · rfl
    · split <;> rfl

theorem parseParamSeg_regex (rpw : RegexParams × Bool) (e : String)
    (h : notRegexParam e) : (parseParamSeg rpw e).1.regex = rpw.1.regex := by
  unfold parseParamSeg
  split
  · rfl
  · rfl
  · rename_i p q t heq
    split
    · rfl
    · split
      · rename_i hnap hpr
        exfalso
        unfold notRegexParam at h
        rw [heq] at h
        rcases h with h | h
        · simp at h
        · simp only [List.headD_cons] at h
          exact h hpr
      · rfl

theorem foldl_parseParamSeg (l : List String) (rpw : RegexParams × Bool)
    (h : ∀ e ∈ l, notRegexParam e) :
    (l.foldl parseParamSeg rpw).1.regex = rpw.1.regex ∧
      (l.foldl parseParamSeg rpw).2 = rpw.2 := by
  induction l generalizing rpw with
  | nil => exact ⟨rfl, rfl⟩
  | cons x xs ih =>
    simp only [List.foldl_cons]
    obtain ⟨g1, g2⟩ := ih (parseParamSeg rpw x)
      (fun e he => h e (List.mem_cons_of_mem _ he))
    exact ⟨g1.trans (parseParamSeg_regex rpw x (h x (List.mem_cons_self _ _))),
      g2.trans (parseParamSeg_warned rpw x)⟩

/-! ## Claim theorems -/

/-- Counterexample to C7 as stated: for the pattern source
`(\;regex:x`, the first segment `(` fails to compile and the
never-matching fallback is installed — but the second segment is the
parameter `regex:x`, which the source assigns into the same dict,
overwriting the fallback with the plain string `x`; handed to
`re.search` at matching time, that string matches any input containing
`x` (here `xyz`), so the returned Pattern does not match no input. -/
theorem C7_counterexample :
    (normalize_regex (fun _ => none) "(\\;regex:x").1.regex =
        PatSlot.overwritten "x" ∧
      slotSearch reModLit
        (normalize_regex (fun _ => none) "(\\;regex:x").1.regex "xyz" = true ∧
      (normalize_regex (fun _ => none) "(\\;regex:x").2 = true :=
  ⟨rfl, by decide, rfl⟩

/-- C7 amended: when the first `\;`-segment of a pattern source fails
to compile, a warning is emitted and loading does not raise; the
returned Pattern's regex matches no input provided no later
`\;`-segment is a parameter named `regex` — such a segment overwrites
the dict's `'regex'` entry with its raw string value, which the `re`
module then uses as the search pattern. -/
theorem C7_invalid_regex_fallback (compile : Compile) (p seg0 : String)
    (rest : List String) (hs : pySplit p "\\;" = seg0 :: rest)
    (hc : compile seg0 = none) (hr : ∀ e ∈ rest, notRegexParam e) :
    (∀ (reMod : ReModule) (s : String),
        slotSearch reMod (normalize_regex compile p).1.regex s = false) ∧
      (normalize_regex compile p).2 = true := by
  have hbase :
      normalize_regex compile p =
        rest.foldl parseParamSeg
          ({ application_pattern := seg0, regex := PatSlot.compiled RE.never,
             params := [] }, true) := by
    unfold normalize_regex
    rw [hs]
    simp only [hc]
  constructor
  · intro reMod s
    have h1 : (normalize_regex compile p).1.regex = PatSlot.compiled RE.never := by
      rw [hbase, (foldl_parseParamSeg rest _ hr).1]
    rw [h1]
    exact reSearch_never s
  · rw [hbase]
    exact (foldl_parseParamSeg rest _ hr).2

/-- Witness for C7's amended statement at the concrete pattern
`(\;version:1`: invalid first segment, one later segment that is a
`version` parameter (not a `regex` one). -/
theorem C7_witness :
    pySplit "(\\;version:1" "\\;" = ["(", "version:1"] ∧
      (fun _ => (none : Option RE)) "(" = none ∧
      (∀ e ∈ ["version:1"], notRegexParam e) ∧
      ((∀ (reMod : ReModule) (s : String),
          slotSearch reMod
            (normalize_regex (fun _ => none) "(\\;version:1").1.regex s = false) ∧
        (normalize_regex (fun _ => none) "(\\;version:1").2 = true) :=
  ⟨rfl, rfl, by decide,
    C7_invalid_regex_fallback (fun _ => none) "(\\;version:1" "(" ["version:1"]
      rfl rfl (by decide)⟩

/-- C10: an application whose normalized `url` is empty and whose
`html`, `script`, `cookies`, `headers`, `meta` rule collections are all
empty is never detected directly, on any snapshot; it can enter a
result only through the implication closure. -/
theorem C10_empty_rules_never_detected (reMod : ReModule)
    (web_content : WebContent)
    (application : App) (hu : application.url = none)
    (hh : application.html = []) (hs : application.script = [])
    (hc : application.cookies = []) (hhd : application.headers = [])
    (hm : application.meta = []) :
    (is_application_detected reMod web_content application).1 = false := by
  simp [is_application_detected, is_application_detected_normalize_string,
        is_application_detected_normalize_list,
        is_application_detected_normalize_dict, listFieldOf, dictFieldOf,
        hu, hh, hs, hc, hhd, hm]

/-- Witness for C10: the all-empty application on a non-empty snapshot. -/
theorem C10_witness :
    emptyApp.url = none ∧ emptyApp.html = [] ∧ emptyApp.script = [] ∧
      emptyApp.cookies = [] ∧ emptyApp.headers = [] ∧ emptyApp.meta = [] ∧
      (is_application_detected reModLit wcC1 emptyApp).1 = false :=
  ⟨rfl, rfl, rfl, rfl, rfl, rfl,
    C10_empty_rules_never_detected reModLit wcC1 emptyApp rfl rfl rfl rfl rfl rfl⟩

/-- C6: for the version template `\1?Pro:Free`, an occurrence whose
first capture group is non-empty resolves to `Pro` and one whose first
capture group is empty resolves to `Free` (the ternary is resolved
before plain `\1` substitution); concretely, `update_version_detected`
with regex `a(x?)` records `Pro` on content `ax` and `Free` on
content `a`. -/
theorem C6_ternary_resolution (g : String) :
    applyOcc [g] "\\1?Pro:Free" = (if g = "" then "Free" else "Pro") ∧
      (update_version_detected reModLit emptyApp rpTernary "ax").versions =
        some ["Pro"] ∧
      (update_version_detected reModLit emptyApp rpTernary "a").versions =
        some ["Free"] := by
  refine ⟨?_, by decide, by decide⟩
  by_cases hg : g = ""
  · subst hg
    decide
  · rw [if_neg hg]
    show strReplace
        (strReplace "\\1?Pro:Free" "\\1?Pro:Free"
          (if g ≠ "" then "Pro" else "Free")) "\\1" g = "Pro"
    rw [if_pos hg]
    show strReplace "Pro" "\\1" g = "Pro"
    rfl

/-- Witness for C6 at the concrete non-empty group value `x`. -/
theorem C6_witness :
    applyOcc ["x"] "\\1?Pro:Free" = "Pro" ∧
      (update_version_detected reModLit emptyApp rpTernary "ax").versions =
        some ["Pro"] := by
  have h := C6_ternary_resolution "x"
  exact ⟨by rw [h.1]; decide, h.2.1⟩

/-- Counterexample to C1 as stated: on `wcC1`, the `cookies` check of
`appC1` matches on its own (and would contribute version `2`), yet
`is_application_detected` — whose six checks are combined with the
short-circuiting Python `or` — stops after the matching `url` check and
records only version `1`; the spec's all-six-checks reading would have
recorded both. -/
theorem C1_counterexample :
    (is_application_detected_normalize_dict reModLit appC1 DictField.cookies
        wcC1.cookies).1 = true ∧
      (is_application_detected_normalize_dict reModLit appC1 DictField.cookies
        wcC1.cookies).2.versions = some ["2"] ∧
      (is_application_detected reModLit wcC1 appC1).2.versions = some ["1"] ∧
      (spec_all_checks_detected reModLit wcC1 appC1).2.versions =
        some ["1", "2"] :=
  ⟨by decide, by decide, by decide, by decide⟩

/-- C1 amended: the six per-field checks are attempted in the order
url, html, script, cookies, headers, meta and evaluation
short-circuits at the first matching check, so only the first matching
field contributes version extractions; the detection verdict itself is
nevertheless the same as if all six checks were evaluated.  Within a
single field's check, iteration does continue after a match, so one
field can contribute several version strings. -/
theorem C1_amended_shortcircuit (reMod : ReModule) (web_content : WebContent)
    (application : App) :
    (is_application_detected reMod web_content application).1 =
      (spec_all_checks_detected reMod web_content application).1 ∧
      (is_application_detected_normalize_list reModLit
          { emptyApp with html := [rpUrl1, rpCookie2] } ListField.html
          (charsOf "ab")).2.versions = some ["1", "2"] := by
  constructor
  · unfold is_application_detected spec_all_checks_detected
    simp only []
    split_ifs <;> simp_all
  · decide

/-- Witness for C1's amended statement at the counterexample fixture. -/
theorem C1_witness :
    (is_application_detected reModLit wcC1 appC1).1 =
      (spec_all_checks_detected reModLit wcC1 appC1).1 :=
  (C1_amended_shortcircuit reModLit wcC1 appC1).1

/-- Counterexample to C2 as stated: the empty-pattern rule
`cookies: {"session_id": ""}` normalizes to the key itself as pattern,
and on a snapshot whose cookie `session_id` has value `abc` — the key
is present — the application is NOT detected, because the key-compiled
regex is searched in the value `abc` and fails. -/
theorem C2_counterexample :
    normalizeDictRules litCompile (some (JVal.dict [("session_id", JVal.str "")])) =
      Except.ok [("session_id", (normalize_regex litCompile "session_id").1)] ∧
      dictGet [("session_id", "abc")] "session_id" = some "abc" ∧
      (is_application_detected_normalize_dict reModLit
          { emptyApp with
            cookies := [("session_id", (normalize_regex litCompile "session_id").1)] }
          DictField.cookies [("session_id", "abc")]).1 = false :=
  ⟨rfl, rfl, by decide⟩

/-- C2 amended: a dict-field rule mapping a key to the empty pattern
string is normalized to use the key itself as the pattern, and the
application is then detected on a snapshot containing that key exactly
when the key-compiled regex matches the value stored under the key —
not merely when the key is present. -/
theorem C2_amended_key_as_pattern (reMod : ReModule) (compile : Compile)
    (key value : String) :
    normalizeDictRules compile (some (JVal.dict [(key, JVal.str "")])) =
      Except.ok [(key, (normalize_regex compile key).1)] ∧
      (is_application_detected_normalize_dict reMod
          { emptyApp with cookies := [(key, (normalize_regex compile key).1)] }
          DictField.cookies [(key, value)]).1 =
        slotSearch reMod (normalize_regex compile key).1.regex value := by
  refine ⟨rfl, ?_⟩
  simp [is_application_detected_normalize_dict, dictFieldOf, dictGet]
  cases h : slotSearch reMod (normalize_regex compile key).1.regex value <;>
    simp [h]

/-- Witness for C2's amended statement: the same rule detects the
application when the value does contain the key. -/
theorem C2_witness :
    (is_application_detected_normalize_dict reModLit
        { emptyApp with
          cookies := [("session_id", (normalize_regex litCompile "session_id").1)] }
        DictField.cookies [("session_id", "a session_id cookie")]).1 =
      slotSearch reModLit (normalize_regex litCompile "session_id").1.regex
        "a session_id cookie" :=
  (C2_amended_key_as_pattern reModLit litCompile "session_id"
    "a session_id cookie").2

/-- The accumulated `versions` sequence of an application (`[]` when
the key is absent, as in `get_versions`). -/
def versionsOf (application : App) : List String :=
  match application.versions with
  | none => []
  | some vs => vs

theorem addVersion_append (app : App) (vp : String) (h1 : vp ≠ "")
    (h2 : vp ∉ versionsOf app) :
    versionsOf (addVersion app vp) = versionsOf app ++ [vp] := by
  unfold addVersion
  cases hv : app.versions with
  | none => simp [versionsOf, hv, h1]
  | some vs =>
    have h2' : vp ∉ vs := by simpa [versionsOf, hv] using h2
    simp [versionsOf, hv, h1, h2']

theorem addVersion_skip (app : App) (vp : String)
    (h : vp = "" ∨ vp ∈ versionsOf app) : addVersion app vp = app := by
  unfold addVersion
  by_cases he : vp = ""
  · simp [he]
  · rcases h with h | h
    · exact absurd h he
    · cases hv : app.versions with
      | none => rw [versionsOf, hv] at h; simp at h
      | some vs =>
        have h' : vp ∈ vs := by simpa [versionsOf, hv] using h
        simp [he, hv, h']

theorem addVersion_extends (app : App) (vp : String) :
    ∃ t, versionsOf (addVersion app vp) = versionsOf app ++ t := by
  by_cases h1 : vp = ""
  · exact ⟨[], by rw [addVersion_skip app vp (Or.inl h1)]; simp⟩
  · by_cases h2 : vp ∈ versionsOf app
    · exact ⟨[], by rw [addVersion_skip app vp (Or.inr h2)]; simp⟩
    · exact ⟨[vp], addVersion_append app vp h1 h2⟩

theorem addVersion_wf (app : App) (vp : String)
    (h : (versionsOf app).Nodup ∧ "" ∉ versionsOf app) :
    (versionsOf (addVersion app vp)).Nodup ∧ "" ∉ versionsOf (addVersion app vp) := by
  by_cases h1 : vp = ""
  · rw [addVersion_skip app vp (Or.inl h1)]; exact h
  · by_cases h2 : vp ∈ versionsOf app
    · rw [addVersion_skip app vp (Or.inr h2)]; exact h
    · rw [addVersion_append app vp h1 h2]
      constructor
      · simp [List.nodup_append, h.1, h2]
      · simp [h.2]
        exact fun he => h1 he.symm

theorem foldl_addVersion_wf (vtpl : String) (occs : List (List String)) (app : App)
    (h : (versionsOf app).Nodup ∧ "" ∉ versionsOf app) :
    ((versionsOf (occs.foldl (fun a occ => addVersion a (applyOcc occ vtpl)) app)).Nodup ∧
      "" ∉ versionsOf (occs.foldl (fun a occ => addVersion a (applyOcc occ vtpl)) app)) ∧
      ∃ t, versionsOf (occs.foldl (fun a occ => addVersion a (applyOcc occ vtpl)) app) =
          versionsOf app ++ t := by
  induction occs generalizing app with
  | nil => exact ⟨h, [], by simp⟩
  | cons occ rest ih =>
    simp only [List.foldl_cons]
    obtain ⟨hwf, t1, ht1⟩ := ih (addVersion app (applyOcc occ vtpl))
      (addVersion_wf _ _ h)
    obtain ⟨t0, ht0⟩ := addVersion_extends app (applyOcc occ vtpl)
    exact ⟨hwf, t0 ++ t1, by rw [ht1, ht0, List.append_assoc]⟩

/-- C8: a fully resolved version string is appended exactly when it is
non-empty and new (preserving first-seen order), and is skipped when it
is empty or already present; consequently `update_version_detected`
keeps `versions` a duplicate-free list of non-empty strings that only
ever grows by appending at the end. -/
theorem C8_versions_distinct (reMod : ReModule) (application : App)
    (regex_params : RegexParams) (content : String)
    (h : (versionsOf application).Nodup ∧ "" ∉ versionsOf application) :
    ((∀ vp, vp ≠ "" → vp ∉ versionsOf application →
        versionsOf (addVersion application vp) = versionsOf application ++ [vp]) ∧
      (∀ vp, vp = "" ∨ vp ∈ versionsOf application →
        addVersion application vp = application)) ∧
      ((versionsOf (update_version_detected reMod application regex_params
          content)).Nodup ∧
        "" ∉ versionsOf (update_version_detected reMod application regex_params
          content)) ∧
      ∃ t, versionsOf (update_version_detected reMod application regex_params
          content) = versionsOf application ++ t := by
  refine ⟨⟨fun vp h1 h2 => addVersion_append application vp h1 h2,
    fun vp hh => addVersion_skip application vp hh⟩, ?_⟩
  unfold update_version_detected
  cases hv : dictGet regex_params.params "version" with
  | none => exact ⟨h, [], by simp⟩
  | some vtpl => exact foldl_addVersion_wf vtpl _ application h

/-- Witness for C8 on a concrete extraction run. -/
theorem C8_witness :
    ((versionsOf (update_version_detected reModLit emptyApp rpUrl1 "a")).Nodup ∧
      "" ∉ versionsOf (update_version_detected reModLit emptyApp rpUrl1 "a")) ∧
      ∃ t, versionsOf (update_version_detected reModLit emptyApp rpUrl1 "a") =
          versionsOf emptyApp ++ t :=
  (C8_versions_distinct reModLit emptyApp rpUrl1 "a" ⟨by decide, by decide⟩).2

theorem setAdd_mem (s : List String) (x y : String) :
    y ∈ setAdd s x ↔ y ∈ s ∨ y = x := by
  unfold setAdd
  by_cases h : x ∈ s
  · simp only [if_pos h]
    constructor
    · exact Or.inl
    · rintro (h1 | rfl)
      · exact h1
      · exact h
  · simp [if_neg h]

theorem setAdd_nodup (s : List String) (x : String) (h : s.Nodup) :
    (setAdd s x).Nodup := by
  unfold setAdd
  by_cases hx : x ∈ s
  · simpa [hx]
  · simp [hx, List.nodup_append, h]

theorem setUnion_mem (s t : List String) (y : String) :
    y ∈ setUnion s t ↔ y ∈ s ∨ y ∈ t := by
  induction t generalizing s with
  | nil => simp [setUnion]
  | cons a t ih =>
    rw [show setUnion s (a :: t) = setUnion (setAdd s a) t from rfl]
    rw [ih (setAdd s a), setAdd_mem]
    simp only [List.mem_cons]
    tauto

theorem setUnion_nodup (s t : List String) (h : s.Nodup) : (setUnion s t).Nodup := by
  induction t generalizing s with
  | nil => exact h
  | cons a t ih =>
    rw [show setUnion s (a :: t) = setUnion (setAdd s a) t from rfl]
    exact ih (setAdd s a) (setAdd_nodup s a h)

theorem nodup_subset_length_le (s u : List String) (hs : s.Nodup)
    (hsub : ∀ x ∈ s, x ∈ u) : s.length ≤ u.toFinset.card := by
  have h1 : s.toFinset ⊆ u.toFinset := by
    intro y hy
    rw [List.mem_toFinset] at hy ⊢
    exact hsub y hy
  have h2 := Finset.card_le_card h1
  rwa [List.toFinset_card_of_nodup hs] at h2

theorem setUnion_length_lt (s t : List String) (x : String) (hs : s.Nodup)
    (hx : x ∈ t) (hxs : x ∉ s) : s.length < (setUnion s t).length := by
  have hsub1 : s.toFinset ⊆ (setUnion s t).toFinset := by
    intro y hy
    rw [List.mem_toFinset] at hy ⊢
    exact (setUnion_mem s t y).mpr (Or.inl hy)
  have hss : s.toFinset ⊂ (setUnion s t).toFinset := by
    rw [Finset.ssubset_iff_of_subset hsub1]
    refine ⟨x, ?_, ?_⟩
    · rw [List.mem_toFinset]
      exact (setUnion_mem s t x).mpr (Or.inr hx)
    · rw [List.mem_toFinset]
      exact hxs
  have h1 := Finset.card_lt_card hss
  rwa [List.toFinset_card_of_nodup hs,
    List.toFinset_card_of_nodup (setUnion_nodup s t hs)] at h1

theorem exceptFoldl_invariant {α β ε : Type} (f : β → α → Except ε β)
    (P : β → Prop) (hstep : ∀ acc x b, f acc x = Except.ok b → P acc → P b) :
    ∀ (l : List α) (acc b : β), exceptFoldl f acc l = Except.ok b → P acc → P b := by
  intro l
  induction l with
  | nil =>
    intro acc b h hp
    rw [exceptFoldl] at h
    injection h with h
    rwa [← h]
  | cons x t ih =>
    intro acc b h hp
    rw [exceptFoldl] at h
    cases hf : f acc x with
    | error e => rw [hf] at h; exact Except.noConfusion h
    | ok acc2 => rw [hf] at h; exact ih acc2 b h (hstep acc x acc2 hf hp)

theorem exceptFoldl_error_shape {α β : Type} (f : β → α → Except Err β)
    (Q : Err → Prop) (hstep : ∀ acc x e, f acc x = Except.error e → Q e) :
    ∀ (l : List α) (acc : β) (e : Err),
      exceptFoldl f acc l = Except.error e → Q e := by
  intro l
  induction l with
  | nil =>
    intro acc e h
    rw [exceptFoldl] at h
    exact Except.noConfusion h
  | cons x t ih =>
    intro acc e h
    rw [exceptFoldl] at h
    cases hf : f acc x with
    | error e2 =>
      rw [hf] at h
      injection h with h
      exact h ▸ hstep acc x e2 hf
    | ok acc2 => rw [hf] at h; exact ih acc2 e h

theorem dictGet_mem {α : Type} (d : List (String × α)) (k : String) (v : α)
    (h : dictGet d k = some v) : (k, v) ∈ d := by
  induction d with
  | nil => exact Option.noConfusion h
  | cons kv t ih =>
    obtain ⟨k1, v1⟩ := kv
    rw [dictGet] at h
    by_cases hk : k1 = k
    · rw [if_pos hk] at h
      injection h with h
      rw [← hk, ← h]
      exact List.mem_cons_self _ _
    · rw [if_neg hk] at h
      exact List.mem_cons_of_mem _ (ih h)

theorem foldl_append_mem (l : List (String × App)) (acc : List String) (x : String) :
    x ∈ l.foldl (fun acc na =>
        acc ++ na.2.implies.map (fun rp => rp.application_pattern)) acc ↔
      x ∈ acc ∨ ∃ na ∈ l,
        x ∈ na.2.implies.map (fun rp => rp.application_pattern) := by
  induction l generalizing acc with
  | nil => simp
  | cons na t ih =>
    simp only [List.foldl_cons]
    rw [ih]
    simp only [List.mem_append, List.mem_cons]
    constructor
    · rintro ((h | h) | ⟨nb, hb, hx⟩)
      · exact Or.inl h
      · exact Or.inr ⟨na, Or.inl rfl, h⟩
      · exact Or.inr ⟨nb, Or.inr hb, hx⟩
    · rintro (h | ⟨nb, (rfl | hb), hx⟩)
      · exact Or.inl (Or.inl h)
      · exact Or.inl (Or.inr hx)
      · exact Or.inr ⟨nb, hb, hx⟩

theorem impliedUniverse_mem (apps : List (String × App)) (n : String) (a : App)
    (hmem : (n, a) ∈ apps) (x : String)
    (hx : x ∈ a.implies.map (fun rp => rp.application_pattern)) :
    x ∈ impliedUniverse apps := by
  unfold impliedUniverse
  rw [foldl_append_mem]
  exact Or.inr ⟨(n, a), hmem, hx⟩

theorem get_implied_subset (apps : List (String × App)) (names r : List String)
    (h : get_implied_applications apps names = Except.ok r) :
    ∀ x ∈ r, x ∈ impliedUniverse apps := by
  refine exceptFoldl_invariant (impliedStep apps)
    (fun b => ∀ x ∈ b, x ∈ impliedUniverse apps) ?_ names [] r h (by simp)
  intro acc nm b hstep hacc x hxb
  unfold impliedStep at hstep
  cases hd : dictGet apps nm with
  | none => rw [hd] at hstep; exact Except.noConfusion hstep
  | some app =>
    rw [hd] at hstep
    injection hstep with hstep
    rw [← hstep] at hxb
    rcases (setUnion_mem acc _ x).mp hxb with h1 | h1
    · exact hacc x h1
    · exact impliedUniverse_mem apps nm app (dictGet_mem apps nm app hd) x h1

theorem get_implied_error_is_keyError (apps : List (String × App))
    (names : List String) (e : Err)
    (h : get_implied_applications apps names = Except.error e) :
    ∃ m, e = Err.keyError m ∧ dictGet apps m = none := by
  refine exceptFoldl_error_shape (impliedStep apps)
    (fun e => ∃ m, e = Err.keyError m ∧ dictGet apps m = none) ?_ names [] e h
  intro acc nm e2 hstep
  unfold impliedStep at hstep
  cases hd : dictGet apps nm with
  | none =>
    rw [hd] at hstep
    injection hstep with hstep
    exact ⟨nm, hstep.symm, hd⟩
  | some app => rw [hd] at hstep; exact Except.noConfusion hstep

theorem exceptFoldl_missing_error (apps : List (String × App)) :
    ∀ (names acc : List String), (∃ x ∈ names, dictGet apps x = none) →
      ∃ e, exceptFoldl (impliedStep apps) acc names = Except.error e := by
  intro names
  induction names with
  | nil =>
    intro acc h
    simp at h
  | cons n t ih =>
    intro acc h
    obtain ⟨x, hx, hnone⟩ := h
    rw [exceptFoldl]
    cases hf : impliedStep apps acc n with
    | error e => exact ⟨e, rfl⟩
    | ok acc2 =>
      rcases List.mem_cons.mp hx with rfl | h2
      · exfalso
        unfold impliedStep at hf
        rw [hnone] at hf
        exact Except.noConfusion hf
      · exact ih acc2 ⟨x, h2, hnone⟩

theorem get_implied_missing (apps : List (String × App)) (names : List String)
    (h : ∃ x ∈ names, dictGet apps x = none) :
    ∃ e, get_implied_applications apps names = Except.error e :=
  exceptFoldl_missing_error apps names [] h

theorem get_rec_aux_no_fuel (apps : List (String × App)) :
    ∀ (fuel : Nat) (final init : List String),
      final.Nodup →
      (∀ x ∈ final, x ∈ impliedUniverse apps) →
      (∀ x ∈ init, x ∈ impliedUniverse apps) →
      (impliedUniverse apps).toFinset.card + 1 ≤ fuel + final.length →
      get_rec_aux apps fuel final init ≠ Except.error Err.fuel := by
  intro fuel
  induction fuel with
  | zero =>
    intro final init hnd hfin _ hle
    exfalso
    have h1 := nodup_subset_length_le final (impliedUniverse apps) hnd hfin
    omega
  | succ fuel ih =>
    intro final init hnd hfin hin hle
    rw [get_rec_aux]
    by_cases hsup : isSuperset final init = true
    · rw [if_pos hsup]
      exact fun h => Except.noConfusion h
    · rw [if_neg hsup]
      simp only []
      have hnew : ∃ x ∈ init, x ∉ final := by
        by_contra hcon
        push_neg at hcon
        apply hsup
        unfold isSuperset
        rw [List.all_eq_true]
        intro x hx
        exact decide_eq_true (hcon x hx)
      obtain ⟨x, hxi, hxf⟩ := hnew
      have hnd2 : (setUnion final init).Nodup := setUnion_nodup final init hnd
      have hsub2 : ∀ y ∈ setUnion final init, y ∈ impliedUniverse apps := by
        intro y hy
        rcases (setUnion_mem final init y).mp hy with h | h
        · exact hfin y h
        · exact hin y h
      have hlen : final.length < (setUnion final init).length :=
        setUnion_length_lt final init x hnd hxi hxf
      cases hgi : get_implied_applications apps (setUnion final init) with
      | error e =>
        intro hcon
        injection hcon with hcon
        obtain ⟨m, hm, _⟩ := get_implied_error_is_keyError apps _ e hgi
        rw [hcon] at hm
        exact Err.noConfusion hm
      | ok init2 =>
        exact ih (setUnion final init) init2 hnd2 hsub2
          (get_implied_subset apps _ init2 hgi) (by omega)

/-- C5: `get_rec_implied_applications` computes the transitive closure
(`{A}` yields `{B, C}` in the A-implies-B-implies-C database), the
fixed-point iteration also terminates (with the full closure) when the
implies relation is cyclic, and in general the iteration always
reaches its fixed point within the fuel bound — the accumulated set
grows strictly inside the finite universe of implied names — so the
fuel-exhaustion marker is unreachable. -/
theorem C5_transitive_closure_and_termination :
    get_rec_implied_applications dbChain ["A"] = Except.ok ["B", "C"] ∧
      get_rec_implied_applications dbCycle ["A"] = Except.ok ["B", "C", "A"] ∧
      ∀ (applications : List (String × App)) (detected : List String),
        get_rec_implied_applications applications detected ≠
          Except.error Err.fuel := by
  refine ⟨rfl, rfl, ?_⟩
  intro apps detected
  unfold get_rec_implied_applications
  cases hgi : get_implied_applications apps detected with
  | error e =>
    intro hcon
    injection hcon with hcon
    obtain ⟨m, hm, _⟩ := get_implied_error_is_keyError apps detected e hgi
    rw [hcon] at hm
    exact Err.noConfusion hm
  | ok init =>
    refine get_rec_aux_no_fuel apps ((impliedUniverse apps).length + 2) [] init
      List.nodup_nil (by simp) (get_implied_subset apps detected init hgi) ?_
    have h1 := List.toFinset_card_le (impliedUniverse apps)
    simp only [List.length_nil]
    omega

/-- Witness for C5 at the concrete chain database. -/
theorem C5_witness :
    get_rec_implied_applications dbChain ["A"] = Except.ok ["B", "C"] :=
  C5_transitive_closure_and_termination.1

/-- Counterexample to C4 as stated: in `dbGhost`, application A implies
the absent name `Ghost`; instead of carrying `Ghost` through as an
opaque member of the result, the resolver raises `KeyError` when the
next round looks `Ghost` up in the database. -/
theorem C4_counterexample :
    get_rec_implied_applications dbGhost ["A"] =
      Except.error (Err.keyError "Ghost") := rfl

/-- C4 amended: when the first round of implications contains a name
absent from the database, the fixed-point loop does not return a
result carrying that name — it raises a `KeyError` for some missing
name on the following round. -/
theorem C4_missing_implied_raises (applications : List (String × App))
    (detected init : List String) (name : String)
    (h1 : get_implied_applications applications detected = Except.ok init)
    (h2 : name ∈ init) (h3 : dictGet applications name = none) :
    ∃ m, get_rec_implied_applications applications detected =
        Except.error (Err.keyError m) ∧ dictGet applications m = none := by
  unfold get_rec_implied_applications
  rw [h1]
  simp only []
  rw [show (impliedUniverse applications).length + 2 =
      ((impliedUniverse applications).length + 1) + 1 from rfl]
  rw [get_rec_aux]
  have hsup : ¬ isSuperset [] init = true := by
    unfold isSuperset
    rw [List.all_eq_true]
    intro hall
    have h4 := hall name h2
    simp at h4
  rw [if_neg hsup]
  simp only []
  have hmiss : ∃ x ∈ setUnion [] init, dictGet applications x = none :=
    ⟨name, (setUnion_mem [] init name).mpr (Or.inr h2), h3⟩
  obtain ⟨e, he⟩ := get_implied_missing applications (setUnion [] init) hmiss
  obtain ⟨m, hm, hmn⟩ := get_implied_error_is_keyError applications _ e he
  rw [he]
  exact ⟨m, by rw [hm], hmn⟩

/-- Witness for C4's amended statement at the `dbGhost` fixture. -/
theorem C4_witness :
    ∃ m, get_rec_implied_applications dbGhost ["A"] =
        Except.error (Err.keyError m) ∧ dictGet dbGhost m = none :=
  C4_missing_implied_raises dbGhost ["A"] ["Ghost"] "Ghost" rfl
    (List.mem_singleton.mpr rfl) rfl

/-- C3 (code bug in the source): for a detected application whose
`cats` references an id absent from the category table,
`self.categories.get(str(id), "")` evaluates to the string `""` and the
chained `.get("name", "")` raises `AttributeError`; `get_categories`
and `detect_with_versions_and_categories` therefore raise instead of
yielding the empty-string category name the spec prescribes. -/
theorem C3_missing_category_raises :
    get_categories dbBadCat catsTable "X" = Except.error Err.attributeError ∧
      detect_with_versions_and_categories reModLit wcUrlA dbBadCat catsTable =
        Except.error Err.attributeError :=
  ⟨rfl, rfl⟩

/-! ## Normalization-shape lemmas (C9) -/

/-- A string with no ASCII uppercase letter — the observable meaning of
"lower-cased key". -/
def noUpper (s : String) : Prop :=
  ∀ c ∈ s.data, ¬(65 ≤ c.toNat ∧ c.toNat ≤ 90)

theorem toLower_not_upper (c : Char) :
    ¬(65 ≤ (Char.toLower c).toNat ∧ (Char.toLower c).toNat ≤ 90) := by
  unfold Char.toLower
  simp only []
  by_cases h : c.toNat ≥ 65 ∧ c.toNat ≤ 90
  · rw [if_pos h]
    have hv : Nat.isValidChar (c.toNat + 32) := Or.inl (by omega)
    have he : (Char.ofNat (c.toNat + 32)).toNat = c.toNat + 32 := by
      unfold Char.ofNat
      rw [dif_pos hv]
      rfl
    rw [he]
    omega
  · rw [if_neg h]
    exact fun hc => h ⟨hc.1, hc.2⟩

theorem pyLower_noUpper (s : String) : noUpper (pyLower s) := by
  intro c hc
  have hc2 : c ∈ s.data.map Char.toLower := hc
  obtain ⟨c0, _, rfl⟩ := List.mem_map.mp hc2
  exact toLower_not_upper c0

theorem dictSet_get_self {α : Type} (d : List (String × α)) (k : String) (v : α) :
    dictGet (dictSet d k v) k = some v := by
  induction d with
  | nil => simp [dictSet, dictGet]
  | cons kv t ih =>
    rw [dictSet]
    by_cases hk : kv.1 = k
    · rw [if_pos hk, dictGet, if_pos rfl]
    · rw [if_neg hk, dictGet, if_neg hk]
      exact ih

theorem dictSet_get_ne {α : Type} (d : List (String × α)) (k k2 : String) (v : α)
    (h : k ≠ k2) : dictGet (dictSet d k v) k2 = dictGet d k2 := by
  induction d with
  | nil => simp [dictSet, dictGet, h]
  | cons kv t ih =>
    rw [dictSet]
    by_cases hk : kv.1 = k
    · rw [if_pos hk, dictGet, dictGet, if_neg (hk ▸ h), if_neg (hk ▸ h)]
    · rw [if_neg hk, dictGet, dictGet]
      by_cases hk2 : kv.1 = k2
      · rw [if_pos hk2, if_pos hk2]
      · rw [if_neg hk2, if_neg hk2]
        exact ih

theorem dictSet_mem {α : Type} (d : List (String × α)) (k : String) (v : α)
    (kv2 : String × α) (h : kv2 ∈ dictSet d k v) : kv2 = (k, v) ∨ kv2 ∈ d := by
  induction d with
  | nil => simpa [dictSet] using h
  | cons kv t ih =>
    rw [dictSet] at h
    by_cases hk : kv.1 = k
    · rw [if_pos hk] at h
      rcases List.mem_cons.mp h with h | h
      · exact Or.inl h
      · exact Or.inr (List.mem_cons_of_mem _ h)
    · rw [if_neg hk] at h
      rcases List.mem_cons.mp h with h | h
      · exact Or.inr (h ▸ List.mem_cons_self _ _)
      · rcases ih h with h | h
        · exact Or.inl h
        · exact Or.inr (List.mem_cons_of_mem _ h)

theorem lowerKeys_noUpper (d : List (String × JVal)) :
    ∀ kv ∈ lowerKeys d, noUpper kv.1 := by
  unfold lowerKeys
  suffices h : ∀ (acc : List (String × JVal)),
      (∀ kv ∈ acc, noUpper kv.1) →
      ∀ kv ∈ d.foldl (fun acc kv => dictSet acc (pyLower kv.1) kv.2) acc,
        noUpper kv.1 by
    exact h [] (by simp)
  induction d with
  | nil => intro acc hacc kv hkv; exact hacc kv hkv
  | cons kv0 t ih =>
    intro acc hacc kv hkv
    simp only [List.foldl_cons] at hkv
    refine ih (dictSet acc (pyLower kv0.1) kv0.2) ?_ kv hkv
    intro kv2 hkv2
    rcases dictSet_mem acc (pyLower kv0.1) kv0.2 kv2 hkv2 with h | h
    · rw [h]
      exact pyLower_noUpper kv0.1
    · exact hacc kv2 h

/-- "Field `f` holds a list value." -/
def isListAt (kvs : List (String × JVal)) (f : String) : Prop :=
  ∃ xs, dictGet kvs f = some (JVal.list xs)

/-- "Field `f` holds a dict value all of whose keys are lower-cased." -/
def isLoweredDictAt (kvs : List (String × JVal)) (f : String) : Prop :=
  ∃ d, dictGet kvs f = some (JVal.dict d) ∧ ∀ kv ∈ d, noUpper kv.1

theorem normListField_establishes (kvs : List (String × JVal)) (f : String) :
    isListAt (normListField kvs f) f := by
  unfold normListField isListAt
  cases hd : dictGet kvs f with
  | none => exact ⟨[], dictSet_get_self kvs f (JVal.list [])⟩
  | some v =>
    cases v with
    | list xs => exact ⟨xs, hd⟩
    | str s => exact ⟨[JVal.str s], dictSet_get_self kvs f _⟩
    | num n => exact ⟨[JVal.num n], dictSet_get_self kvs f _⟩
    | dict d => exact ⟨[JVal.dict d], dictSet_get_self kvs f _⟩

theorem normListField_get_ne (kvs : List (String × JVal)) (g f : String)
    (h : g ≠ f) : dictGet (normListField kvs g) f = dictGet kvs f := by
  unfold normListField
  cases hd : dictGet kvs g with
  | none => exact dictSet_get_ne kvs g f _ h
  | some v =>
    cases v with
    | list xs => rfl
    | str s => exact dictSet_get_ne kvs g f _ h
    | num n => exact dictSet_get_ne kvs g f _ h
    | dict d => exact dictSet_get_ne kvs g f _ h

theorem normListField_preserves_isList (kvs : List (String × JVal)) (g f : String)
    (h : isListAt kvs f) : isListAt (normListField kvs g) f := by
  by_cases hgf : g = f
  · subst hgf
    obtain ⟨xs, hxs⟩ := h
    unfold normListField
    rw [hxs]
    exact ⟨xs, hxs⟩
  · obtain ⟨xs, hxs⟩ := h
    exact ⟨xs, (normListField_get_ne kvs g f hgf).trans hxs⟩

theorem foldl_normListField_preserves (fs : List String)
    (kvs : List (String × JVal)) (f : String) (h : isListAt kvs f) :
    isListAt (fs.foldl normListField kvs) f := by
  induction fs generalizing kvs with
  | nil => exact h
  | cons g t ih =>
    simp only [List.foldl_cons]
    exact ih (normListField kvs g) (normListField_preserves_isList kvs g f h)

theorem foldl_normListField_isList (fs : List String)
    (kvs : List (String × JVal)) (f : String) (hf : f ∈ fs) :
    isListAt (fs.foldl normListField kvs) f := by
  induction fs generalizing kvs with
  | nil => exact absurd hf (List.not_mem_nil f)
  | cons g t ih =>
    simp only [List.foldl_cons]
    by_cases hfg : f = g
    · subst hfg
      exact foldl_normListField_preserves t (normListField kvs f) f
        (normListField_establishes kvs f)
    · rcases List.mem_cons.mp hf with h | h
      · exact absurd h hfg
      · exact ih (normListField kvs g) h

theorem normDictField_error_shape (kvs : List (String × JVal)) (g : String)
    (e : Err) (h : normDictField kvs g = Except.error e) :
    ∃ a, e = Err.notADict g a := by
  unfold normDictField at h
  cases hd : dictGet kvs g with
  | none => rw [hd] at h; exact Except.noConfusion h
  | some v =>
    rw [hd] at h
    cases v with
    | dict d => exact Except.noConfusion h
    | str s => injection h with h; exact ⟨_, h.symm⟩
    | num n => injection h with h; exact ⟨_, h.symm⟩
    | list xs => injection h with h; exact ⟨_, h.symm⟩

theorem normDictField_ok_establishes (kvs kvs2 : List (String × JVal))
    (f : String) (h : normDictField kvs f = Except.ok kvs2) :
    isLoweredDictAt kvs2 f := by
  unfold normDictField at h
  cases hd : dictGet kvs f with
  | none =>
    rw [hd] at h
    injection h with h
    exact ⟨[], by rw [← h]; exact ⟨dictSet_get_self kvs f _, by simp⟩⟩
  | some v =>
    rw [hd] at h
    cases v with
    | dict d =>
      injection h with h
      exact ⟨lowerKeys d, by rw [← h]; exact ⟨dictSet_get_self kvs f _,
        lowerKeys_noUpper d⟩⟩
    | str s => exact Except.noConfusion h
    | num n => exact Except.noConfusion h
    | list xs => exact Except.noConfusion h

theorem normDictField_ok_get_ne (kvs kvs2 : List (String × JVal))
    (g f : String) (hgf : g ≠ f) (h : normDictField kvs g = Except.ok kvs2) :
    dictGet kvs2 f = dictGet kvs f := by
  unfold normDictField at h
  cases hd : dictGet kvs g with
  | none =>
    rw [hd] at h
    injection h with h
    rw [← h]
    exact dictSet_get_ne kvs g f _ hgf
  | some v =>
    rw [hd] at h
    cases v with
    | dict d =>
      injection h with h
      rw [← h]
      exact dictSet_get_ne kvs g f _ hgf
    | str s => exact Except.noConfusion h
    | num n => exact Except.noConfusion h
    | list xs => exact Except.noConfusion h

theorem normDictField_ok_preserves_isList (kvs kvs2 : List (String × JVal))
    (g f : String) (h : normDictField kvs g = Except.ok kvs2)
    (hl : isListAt kvs f) : isListAt kvs2 f := by
  by_cases hgf : g = f
  · subst hgf
    exfalso
    obtain ⟨xs, hxs⟩ := hl
    unfold normDictField at h
    rw [hxs] at h
    exact Except.noConfusion h
  · obtain ⟨xs, hxs⟩ := hl
    exact ⟨xs, (normDictField_ok_get_ne kvs kvs2 g f hgf h).trans hxs⟩

theorem normDictField_ok_preserves_lowered (kvs kvs2 : List (String × JVal))
    (g f : String) (h : normDictField kvs g = Except.ok kvs2)
    (hl : isLoweredDictAt kvs f) : isLoweredDictAt kvs2 f := by
  by_cases hgf : g = f
  · subst hgf
    exact normDictField_ok_establishes kvs kvs2 g h
  · obtain ⟨d, hd, hk⟩ := hl
    exact ⟨d, (normDictField_ok_get_ne kvs kvs2 g f hgf h).trans hd, hk⟩

theorem exceptFoldl_normDictField_establishes (fs : List String)
    (kvs kvs2 : List (String × JVal)) (f : String) (hf : f ∈ fs)
    (h : exceptFoldl normDictField kvs fs = Except.ok kvs2) :
    isLoweredDictAt kvs2 f := by
  induction fs generalizing kvs with
  | nil => exact absurd hf (List.not_mem_nil f)
  | cons g t ih =>
    rw [exceptFoldl] at h
    cases hg : normDictField kvs g with
    | error e => rw [hg] at h; exact Except.noConfusion h
    | ok kvsb =>
      rw [hg] at h
      by_cases hfg : f = g
      · refine exceptFoldl_invariant normDictField (fun b => isLoweredDictAt b f)
          ?_ t kvsb kvs2 h
          (by rw [hfg]; exact normDictField_ok_establishes kvs kvsb g hg)
        intro acc x b hb hp
        exact normDictField_ok_preserves_lowered acc b x f hb hp
      · rcases List.mem_cons.mp hf with h2 | h2
        · exact absurd h2 hfg
        · exact ih kvsb h2 h

theorem exceptFoldl_normDictField_preserves_isList (fs : List String)
    (kvs kvs2 : List (String × JVal)) (f : String)
    (h : exceptFoldl normDictField kvs fs = Except.ok kvs2)
    (hl : isListAt kvs f) : isListAt kvs2 f := by
  refine exceptFoldl_invariant normDictField (fun b => isListAt b f)
    ?_ fs kvs kvs2 h hl
  intro acc x b hb hp
  exact normDictField_ok_preserves_isList acc b x f hb hp

theorem normStringField_get_ne (kvs : List (String × JVal)) (g f : String)
    (h : g ≠ f) : dictGet (normStringField kvs g) f = dictGet kvs f := by
  unfold normStringField
  cases hd : dictGet kvs g with
  | none => exact dictSet_get_ne kvs g f _ h
  | some v =>
    cases v with
    | str s => rfl
    | num n => exact dictSet_get_ne kvs g f _ h
    | list xs => exact dictSet_get_ne kvs g f _ h
    | dict d => exact dictSet_get_ne kvs g f _ h

theorem foldl_normStringField_get_ne (fs : List String)
    (kvs : List (String × JVal)) (f : String) (h : ∀ g ∈ fs, g ≠ f) :
    dictGet (fs.foldl normStringField kvs) f = dictGet kvs f := by
  induction fs generalizing kvs with
  | nil => rfl
  | cons g t ih =>
    simp only [List.foldl_cons]
    rw [ih (normStringField kvs g) (fun g2 hg2 => h g2 (List.mem_cons_of_mem _ hg2))]
    exact normStringField_get_ne kvs g f (h g (List.mem_cons_self _ _))

theorem foldl_normListField_get_ne (fs : List String)
    (kvs : List (String × JVal)) (f : String) (h : ∀ g ∈ fs, g ≠ f) :
    dictGet (fs.foldl normListField kvs) f = dictGet kvs f := by
  induction fs generalizing kvs with
  | nil => rfl
  | cons g t ih =>
    simp only [List.foldl_cons]
    rw [ih (normListField kvs g) (fun g2 hg2 => h g2 (List.mem_cons_of_mem _ hg2))]
    exact normListField_get_ne kvs g f (h g (List.mem_cons_self _ _))

theorem normalizeApp_shapes (kvs kvs2 : List (String × JVal))
    (h : normalizeApp kvs = Except.ok kvs2) :
    (∀ f ∈ ["html", "implies", "script"], isListAt kvs2 f) ∧
      (∀ f ∈ ["meta", "cookies", "headers"], isLoweredDictAt kvs2 f) := by
  unfold normalizeApp at h
  cases hd : exceptFoldl normDictField (listFields.foldl normListField kvs)
      dictFields with
  | error e => rw [hd] at h; exact Except.noConfusion h
  | ok kvsb =>
    rw [hd] at h
    injection h with h
    constructor
    · intro f hf
      have h1 : isListAt (listFields.foldl normListField kvs) f :=
        foldl_normListField_isList listFields kvs f (by fin_cases hf <;> decide)
      obtain ⟨xs, hxs⟩ :=
        exceptFoldl_normDictField_preserves_isList dictFields _ kvsb f hd h1
      refine ⟨xs, ?_⟩
      rw [← h, foldl_normStringField_get_ne stringFields kvsb f
        (by fin_cases hf <;> decide)]
      exact hxs
    · intro f hf
      obtain ⟨d, hdg, hk⟩ :=
        exceptFoldl_normDictField_establishes dictFields _ kvsb f
          (by fin_cases hf <;> decide) hd
      refine ⟨d, ?_, hk⟩
      rw [← h, foldl_normStringField_get_ne stringFields kvsb f
        (by fin_cases hf <;> decide)]
      exact hdg

theorem exceptFoldl_normDictField_error (fs : List String)
    (kvs : List (String × JVal)) (f : String) (w : JVal) (hf : f ∈ fs)
    (hw : dictGet kvs f = some w) (hnd : ∀ d, w ≠ JVal.dict d) :
    ∃ f2 a2, exceptFoldl normDictField kvs fs =
      Except.error (Err.notADict f2 a2) := by
  induction fs generalizing kvs with
  | nil => exact absurd hf (List.not_mem_nil f)
  | cons g t ih =>
    rw [exceptFoldl]
    cases hg : normDictField kvs g with
    | error e =>
      obtain ⟨a, ha⟩ := normDictField_error_shape kvs g e hg
      exact ⟨g, a, by rw [ha]⟩
    | ok kvsb =>
      by_cases hfg : f = g
      · exfalso
        unfold normDictField at hg
        rw [← hfg, hw] at hg
        cases w with
        | dict d => exact hnd d rfl
        | str s => exact Except.noConfusion hg
        | num n => exact Except.noConfusion hg
        | list xs => exact Except.noConfusion hg
      · rcases List.mem_cons.mp hf with h2 | h2
        · exact absurd h2 hfg
        · refine ih kvsb h2 ?_
          rw [normDictField_ok_get_ne kvs kvsb g f (fun hh => hfg hh.symm) hg]
          exact hw

theorem normalizeApp_error_of_bad (kvs : List (String × JVal)) (f : String)
    (w : JVal) (hf : f ∈ dictFields) (hw : dictGet kvs f = some w)
    (hnd : ∀ d, w ≠ JVal.dict d) :
    ∃ f2 a2, normalizeApp kvs = Except.error (Err.notADict f2 a2) := by
  have hw2 : dictGet (listFields.foldl normListField kvs) f = some w := by
    rw [foldl_normListField_get_ne listFields kvs f (by fin_cases hf <;> decide)]
    exact hw
  obtain ⟨f2, a2, herr⟩ :=
    exceptFoldl_normDictField_error dictFields _ f w hf hw2 hnd
  refine ⟨f2, a2, ?_⟩
  unfold normalizeApp
  rw [herr]

theorem normalizeApp_error_shape (kvs : List (String × JVal)) (e : Err)
    (h : normalizeApp kvs = Except.error e) : ∃ f a, e = Err.notADict f a := by
  unfold normalizeApp at h
  cases hd : exceptFoldl normDictField (listFields.foldl normListField kvs)
      dictFields with
  | error e2 =>
    rw [hd] at h
    injection h with h
    subst h
    refine exceptFoldl_error_shape normDictField
      (fun e => ∃ f a, e = Err.notADict f a) ?_ dictFields _ e2 hd
    intro acc x e3 hx
    obtain ⟨a, ha⟩ := normDictField_error_shape acc x e3 hx
    exact ⟨x, a, ha⟩
  | ok kvsb => rw [hd] at h; exact Except.noConfusion h

theorem exceptMap_ok_mem {α β ε : Type} (f : α → Except ε β) (l : List α)
    (l2 : List β) (h : exceptMap f l = Except.ok l2) :
    ∀ y ∈ l2, ∃ x ∈ l, f x = Except.ok y := by
  induction l generalizing l2 with
  | nil =>
    rw [exceptMap] at h
    injection h with h
    rw [← h]
    simp
  | cons a t ih =>
    rw [exceptMap] at h
    cases ha : f a with
    | error e => rw [ha] at h; exact Except.noConfusion h
    | ok y0 =>
      rw [ha] at h
      cases ht : exceptMap f t with
      | error e => rw [ht] at h; exact Except.noConfusion h
      | ok ys =>
        rw [ht] at h
        injection h with h
        intro y hy
        rw [← h] at hy
        rcases List.mem_cons.mp hy with rfl | hy2
        · exact ⟨a, List.mem_cons_self _ _, ha⟩
        · obtain ⟨x, hx, hfx⟩ := ih ys ht y hy2
          exact ⟨x, List.mem_cons_of_mem _ hx, hfx⟩

theorem exceptMap_error_exists {α β ε : Type} (f : α → Except ε β) (l : List α)
    (x : α) (e : ε) (hx : x ∈ l) (hfx : f x = Except.error e) :
    ∃ e2 x2, x2 ∈ l ∧ f x2 = Except.error e2 ∧
      exceptMap f l = Except.error e2 := by
  induction l with
  | nil => exact absurd hx (List.not_mem_nil x)
  | cons a t ih =>
    rw [exceptMap]
    cases ha : f a with
    | error ea => exact ⟨ea, a, List.mem_cons_self _ _, ha, rfl⟩
    | ok y0 =>
      rcases List.mem_cons.mp hx with rfl | hx2
      · rw [ha] at hfx; exact Except.noConfusion hfx
      · obtain ⟨e2, x2, hx2b, hfx2, hmap⟩ := ih hx2
        rw [hmap]
        exact ⟨e2, x2, List.mem_cons_of_mem _ hx2b, hfx2, rfl⟩

/-- C9: in a successfully normalized database every application is a
mapping in which `html`, `implies`, `script` hold list values (never
bare strings) and `meta`, `cookies`, `headers` hold mappings whose keys
contain no ASCII uppercase letter; and when some application's
dict-typed field holds a non-mapping value (all applications being
mappings themselves), normalization fails with the structured
`ApplicationDataException` carrying a field name and application
object. -/
theorem C9_normalized_shapes :
    (∀ (apps apps2 : List (String × JVal)),
        normalize_applications apps = Except.ok apps2 →
        ∀ p ∈ apps2, ∃ kvs, p.2 = JVal.dict kvs ∧
          (∀ f ∈ ["html", "implies", "script"], isListAt kvs f) ∧
          (∀ f ∈ ["meta", "cookies", "headers"], isLoweredDictAt kvs f)) ∧
      (∀ (apps : List (String × JVal)) (p : String × JVal)
          (kvs : List (String × JVal)) (f : String) (w : JVal),
        (∀ q ∈ apps, ∃ kvsq, q.2 = JVal.dict kvsq) →
        p ∈ apps → p.2 = JVal.dict kvs → f ∈ dictFields →
        dictGet kvs f = some w → (∀ d, w ≠ JVal.dict d) →
        ∃ f2 a2, normalize_applications apps =
          Except.error (Err.notADict f2 a2)) := by
  constructor
  · intro apps apps2 h p hp
    unfold normalize_applications at h
    obtain ⟨x, _, hfx⟩ := exceptMap_ok_mem normalizeAppEntry apps apps2 h p hp
    unfold normalizeAppEntry at hfx
    cases hx2 : x.2 with
    | dict kvs0 =>
      rw [hx2] at hfx
      replace hfx : Except.map (fun kvs2 => (x.1, JVal.dict kvs2))
          (normalizeApp kvs0) = Except.ok p := hfx
      cases hnm : normalizeApp kvs0 with
      | error e => rw [hnm] at hfx; exact Except.noConfusion hfx
      | ok kvs1 =>
        rw [hnm] at hfx
        simp only [Except.map] at hfx
        injection hfx with hfx
        obtain ⟨h1, h2⟩ := normalizeApp_shapes kvs0 kvs1 hnm
        exact ⟨kvs1, by rw [← hfx], h1, h2⟩
    | str s => rw [hx2] at hfx; exact Except.noConfusion hfx
    | num n => rw [hx2] at hfx; exact Except.noConfusion hfx
    | list xs => rw [hx2] at hfx; exact Except.noConfusion hfx
  · intro apps p kvs f w hall hp hpd hf hw hnd
    obtain ⟨f2, a2, herr⟩ := normalizeApp_error_of_bad kvs f w hf hw hnd
    have hfp : normalizeAppEntry p = Except.error (Err.notADict f2 a2) := by
      unfold normalizeAppEntry
      rw [hpd]
      show Except.map (fun kvs2 => (p.1, JVal.dict kvs2)) (normalizeApp kvs) =
        Except.error (Err.notADict f2 a2)
      rw [herr]
      rfl
    obtain ⟨e2, x2, hx2, hfx2, hmap⟩ :=
      exceptMap_error_exists normalizeAppEntry apps p _ hp hfp
    obtain ⟨kvsq, hkvsq⟩ := hall x2 hx2
    unfold normalizeAppEntry at hfx2
    rw [hkvsq] at hfx2
    replace hfx2 : Except.map (fun kvs2 => (x2.1, JVal.dict kvs2))
        (normalizeApp kvsq) = Except.error e2 := hfx2
    cases hnm2 : normalizeApp kvsq with
    | error e3 =>
      rw [hnm2] at hfx2
      simp only [Except.map] at hfx2
      injection hfx2 with hfx2
      obtain ⟨f3, a3, he3⟩ := normalizeApp_error_shape kvsq e3 hnm2
      refine ⟨f3, a3, ?_⟩
      unfold normalize_applications
      rw [hmap, ← hfx2, he3]
    | ok kvs3 =>
      rw [hnm2] at hfx2
      simp only [Except.map] at hfx2
      exact Except.noConfusion hfx2

/-- Raw database entry whose `html` rule is a bare string. -/
def rawGood : List (String × JVal) := [("X", JVal.dict [("html", JVal.str "p")])]

/-- Normalized shape of `rawGood`'s single application. -/
def normGoodKvs : List (String × JVal) :=
  [("html", JVal.list [JVal.str "p"]), ("cats", JVal.list []),
   ("implies", JVal.list []), ("script", JVal.list []),
   ("meta", JVal.dict []), ("js", JVal.dict []), ("cookies", JVal.dict []),
   ("headers", JVal.dict []), ("url", JVal.str ""), ("icon", JVal.str ""),
   ("website", JVal.str ""), ("cpe", JVal.str "")]

/-- Raw database entry whose `headers` field is not a mapping. -/
def rawBad : List (String × JVal) :=
  [("Y", JVal.dict [("headers", JVal.str "oops")])]

/-- Witness for C9 at concrete databases: a good entry normalizes to
the canonical shape, an entry with a string-valued `headers` field
fails with the structured error. -/
theorem C9_witness :
    (∃ kvs, (("X", JVal.dict normGoodKvs) : String × JVal).2 = JVal.dict kvs ∧
        (∀ f ∈ ["html", "implies", "script"], isListAt kvs f) ∧
        (∀ f ∈ ["meta", "cookies", "headers"], isLoweredDictAt kvs f)) ∧
      ∃ f2 a2, normalize_applications rawBad =
        Except.error (Err.notADict f2 a2) := by
  constructor
  · exact C9_normalized_shapes.1 rawGood [("X", JVal.dict normGoodKvs)] rfl
      ("X", JVal.dict normGoodKvs) (List.mem_singleton.mpr rfl)
  · refine C9_normalized_shapes.2 rawBad ("Y", JVal.dict [("headers", JVal.str "oops")])
      [("headers", JVal.str "oops")] "headers" (JVal.str "oops") ?_
      (List.mem_singleton.mpr rfl) rfl (by decide) rfl
      (fun d h => JVal.noConfusion h)
    intro q hq
    rcases List.mem_singleton.mp hq with rfl
    exact ⟨[("headers", JVal.str "oops")], rfl⟩
